import Mathlib

/-!
Verification of the appointment scheduling and booking engine of the
hospital-administration backend (`backend/routers/appointments.py`,
`backend/models.py`, `backend/schemas.py`).

Shallow embedding conventions:

* Instants (`datetime` values) are modelled as `Int`, measured in minutes.
  A calendar date is the day number `dateOf t = t / 1440`; the concrete
  rounding mode is irrelevant to every statement below (all shift and
  appointment instants in concrete examples lie in day 0).  Durations
  (`timedelta(minutes=d)`) are the same unit, so `t + timedelta(minutes=d)`
  becomes `t + d`.
* Database rows become structures; SQLAlchemy soft deletion
  (`deleted_at IS NULL` filters) becomes an `Option Int` field.
* `db.query(...).filter(...).first()` becomes `List.find?`,
  `.all()` becomes `List.filter`, an existence check becomes `List.any`.
* `db.add` / `db.commit` become functional state update; the row id a
  commit assigns is modelled by the `next_id` counter.  Every handler
  returns the resulting database state together with an `Except` value;
  error paths return the state unchanged (the handlers raise
  `HTTPException` before any `db.commit()`).
* The `User` row behind a doctor is collapsed: the handlers load
  `doctor_user` by primary key `doctor.user_id` and only use
  `doctor_user.id`, which equals `doctor.user_id` whenever the row
  exists, so shift lookups are keyed directly on `doctor.user_id`.
  Authentication, role checks, email notification and response
  enrichment are out of scope per the specification and are not
  modelled.
-/

namespace Hospital

/-- `models.AppointmentStatus`: the four status values. -/
inductive AppointmentStatus where
  | pending
  | confirmed
  | completed
  | cancelled
deriving DecidableEq, Repr

/-- A row of the `appointments` table (`models.Appointment`); audit
timestamps `created_at` / `updated_at` are not tracked, they are not read
by any scheduling logic. -/
structure Appointment where
  id : Nat
  patient_id : Nat
  doctor_id : Nat
  appointment_date : Int
  disease : String
  status : AppointmentStatus
  deleted_at : Option Int
deriving DecidableEq, Repr

/-- A row of the `doctors` table (`models.Doctor`), restricted to the
fields the appointment router reads. -/
structure Doctor where
  id : Nat
  user_id : Nat
  deleted_at : Option Int
deriving DecidableEq, Repr

/-- A row of the `shifts` table (`models.Shift`), restricted to the fields
the appointment router reads. -/
structure Shift where
  id : Nat
  user_id : Nat
  date : Int
  start_time : Int
  end_time : Int
  deleted_at : Option Int
deriving DecidableEq, Repr

/-- The persisted state visible to the appointment router: the three
tables, the id counter the storage layer uses for inserts, and the clock
value `datetime.utcnow()` reads. -/
structure DB where
  doctors : List Doctor
  shifts : List Shift
  appointments : List Appointment
  next_id : Nat
  now : Int

/-- The caller-facing error kinds raised by the appointment handlers
(`HTTPException` payloads).  `outsideShiftHours` carries the resolved
window bounds, as the handler's detail message does.  `internalError`
stands for the generic 500 path (an unguarded `None` dereference). -/
inductive ApiError where
  | notFound
  | doctorNotFound
  | doctorUnavailable
  | outsideShiftHours (windowStart windowEnd : Int)
  | slotAlreadyBooked
  | internalError
deriving DecidableEq, Repr

/-- `Python date()` projection of an instant to its calendar day
(1440 minutes per day). -/
def dateOf (t : Int) : Int :=
  t / 1440

/-- `db.query(Doctor).filter(Doctor.id == did, Doctor.deleted_at.is_(None)).first()`. -/
def findDoctor (db : DB) (did : Nat) : Option Doctor :=
  db.doctors.find? (fun d => d.id == did && d.deleted_at.isNone)

/-- `db.query(Shift).filter(Shift.user_id == uid, func.date(Shift.date) == dateVal,
Shift.deleted_at.is_(None)).first()`. -/
def findShift (db : DB) (uid : Nat) (dateVal : Int) : Option Shift :=
  db.shifts.find? (fun s => s.user_id == uid && dateOf s.date == dateVal && s.deleted_at.isNone)

/-- `db.query(Appointment).filter(Appointment.id == i,
Appointment.deleted_at.is_(None)).first()`. -/
def findAppointment (db : DB) (i : Nat) : Option Appointment :=
  db.appointments.find? (fun a => a.id == i && a.deleted_at.isNone)

/-- The conflict predicate of `create_appointment` / `update_appointment`:
same doctor, exactly the same instant, not soft-deleted, and status in
`[AppointmentStatus.PENDING, AppointmentStatus.CONFIRMED]`. -/
def blocksB (did : Nat) (t : Int) (a : Appointment) : Bool :=
  a.doctor_id == did && a.appointment_date == t && a.deleted_at.isNone &&
    (a.status == .pending || a.status == .confirmed)

/-- Propositional form of `blocksB`. -/
def Blocks (did : Nat) (t : Int) (a : Appointment) : Prop :=
  a.doctor_id = did ∧ a.appointment_date = t ∧ a.deleted_at = none ∧
    (a.status = .pending ∨ a.status = .confirmed)

/-- The row `create_appointment` inserts: status `PENDING`, not deleted;
the storage layer assigns id `db.next_id`. -/
def newAppt (db : DB) (pid did : Nat) (t : Int) (dis : String) : Appointment :=
  { id := db.next_id
    patient_id := pid
    doctor_id := did
    appointment_date := t
    disease := dis
    status := .pending
    deleted_at := none }

/-- `POST /api/appointments` (`create_appointment`), after the
authenticated user has been resolved to patient profile `pid` by
`get_or_create_patient`.  Checks, in source order: doctor exists, doctor
has a non-deleted shift on the requested instant's date, the instant lies
within `[shift.start_time, shift.end_time]` (inclusive), and no
conflicting appointment exists; then inserts the new `PENDING` row. -/
def create_appointment (db : DB) (pid did : Nat) (t : Int) (dis : String) :
    DB × Except ApiError Nat :=
  match findDoctor db did with
  | none => (db, .error .doctorNotFound)
  | some doctor =>
    match findShift db doctor.user_id (dateOf t) with
    | none => (db, .error .doctorUnavailable)
    | some shift =>
      if shift.start_time ≤ t ∧ t ≤ shift.end_time then
        if db.appointments.any (blocksB did t) then
          (db, .error .slotAlreadyBooked)
        else
          ({ db with
              appointments := db.appointments ++ [newAppt db pid did t dis]
              next_id := db.next_id + 1 },
            .ok db.next_id)
      else
        (db, .error (.outsideShiftHours shift.start_time shift.end_time))

/-- `DELETE /api/appointments/{id}` (`delete_appointment`): soft delete.
Finds the non-deleted appointment (404 otherwise), then sets
`deleted_at = utcnow()` and `status = CANCELLED`. -/
def delete_appointment (db : DB) (i : Nat) : DB × Except ApiError Unit :=
  match findAppointment db i with
  | none => (db, .error .notFound)
  | some _ =>
    ({ db with
        appointments := db.appointments.map (fun b =>
          if b.id == i then { b with deleted_at := some db.now, status := .cancelled } else b) },
      .ok ())

/-- `PATCH /api/appointments/{id}/status` (`update_appointment_status`):
finds the non-deleted appointment (404 otherwise) and unconditionally
overwrites its status. -/
def update_appointment_status (db : DB) (i : Nat) (st : AppointmentStatus) :
    DB × Except ApiError Unit :=
  match findAppointment db i with
  | none => (db, .error .notFound)
  | some _ =>
    ({ db with
        appointments := db.appointments.map (fun b =>
          if b.id == i then { b with status := st } else b) },
      .ok ())

/-- `schemas.AppointmentUpdate`: the partial-update change set; `none`
models a field absent from the request body (Pydantic `exclude_unset`). -/
structure AppointmentUpdate where
  patient_id : Option Nat := none
  doctor_id : Option Nat := none
  appointment_date : Option Int := none
  disease : Option String := none
  status : Option AppointmentStatus := none
deriving DecidableEq, Repr

/-- The `setattr` applications of `update_appointment` for the fields
iterated before `appointment_date` (Pydantic preserves field declaration
order: `patient_id`, then `doctor_id`). -/
def applyPD (u : AppointmentUpdate) (a : Appointment) : Appointment :=
  let a1 := match u.patient_id with
    | some p => { a with patient_id := p }
    | none => a
  match u.doctor_id with
  | some d => { a1 with doctor_id := d }
  | none => a1

/-- The `setattr` applications of `update_appointment` for the fields
iterated after `appointment_date`: `disease`, then `status`. -/
def applyDS (u : AppointmentUpdate) (a : Appointment) : Appointment :=
  let a4 := match u.disease with
    | some s => { a with disease := s }
    | none => a
  match u.status with
  | some st => { a4 with status := st }
  | none => a4

/-- `db.commit()` for an in-place mutation of the appointment loaded by id
`i`: the stored row is replaced by the mutated object. -/
def commitUpdate (db : DB) (i : Nat) (a : Appointment) : DB :=
  { db with
      appointments := db.appointments.map (fun b => if b.id == i then a else b) }

/-- `PUT /api/appointments/{id}` (`update_appointment`).  Fields present
in the change set are applied in declaration order.  A changed
`appointment_date` is validated against the (possibly just reassigned)
doctor's shift for the new date, its window bounds, and conflicts
excluding the appointment's own id; every other field is assigned with no
validation.  A missing doctor row on the date-validation path dereferences
`None` in the handler and surfaces as a 500 (`internalError`). -/
def update_appointment (db : DB) (i : Nat) (u : AppointmentUpdate) :
    DB × Except ApiError Unit :=
  match findAppointment db i with
  | none => (db, .error .notFound)
  | some a0 =>
    match u.appointment_date with
    | none => (commitUpdate db i (applyDS u (applyPD u a0)), .ok ())
    | some t =>
      match findDoctor db (applyPD u a0).doctor_id with
      | none => (db, .error .internalError)
      | some doctor =>
        match findShift db doctor.user_id (dateOf t) with
        | none => (db, .error .doctorUnavailable)
        | some shift =>
          if shift.start_time ≤ t ∧ t ≤ shift.end_time then
            if db.appointments.any (fun b => !(b.id == i) && blocksB (applyPD u a0).doctor_id t b) then
              (db, .error .slotAlreadyBooked)
            else
              (commitUpdate db i (applyDS u { applyPD u a0 with appointment_date := t }), .ok ())
          else
            (db, .error (.outsideShiftHours shift.start_time shift.end_time))

/-- The slot-generation `while` loop of `get_doctor_available_slots`:

    current_time = shift.start_time
    while current_time < shift.end_time:
        slots.append(current_time)
        current_time = current_time + timedelta(minutes=slot_duration)

`fuel` bounds the number of iterations; `none` means the loop has not
terminated within `fuel` iterations (the source has no bound at all, so
`(∀ fuel, ... = none)` states that the loop never terminates). -/
def genSlotsFuel : Nat → Int → Int → Int → Option (List Int)
  | 0, cur, stop, _ => if cur < stop then none else some []
  | fuel + 1, cur, stop, step =>
    if cur < stop then
      (genSlotsFuel fuel (cur + step) stop step).map (fun l => cur :: l)
    else
      some []

/-- The slot loop run with enough fuel for any positive `step`: with
`step ≥ 1` the loop makes at most `stop - cur` iterations. -/
def genSlots (start stop step : Int) : Option (List Int) :=
  genSlotsFuel (stop - start).toNat start stop step

/-- Closed form of the number of loop iterations for a positive step:
`⌈(stop - start) / step⌉`, computed in `Nat`. -/
def slotCount (start stop step : Int) : Nat :=
  if start < stop then ((stop - start).toNat + (step.toNat - 1)) / step.toNat else 0

/-- Closed form of the generated slot sequence:
`start, start + step, …`, one entry per loop iteration. -/
def slotList (start stop step : Int) : List Int :=
  (List.range (slotCount start stop step)).map (fun k : Nat => start + (k : Int) * step)

/-- The conflict predicate of `get_doctor_available_slots`: same doctor,
appointment on the requested calendar date (`func.date`), not
soft-deleted, status in `[PENDING, CONFIRMED]`. -/
def activeOnDateB (did : Nat) (dateArg : Int) (a : Appointment) : Bool :=
  a.doctor_id == did && dateOf a.appointment_date == dateArg && a.deleted_at.isNone &&
    (a.status == .pending || a.status == .confirmed)

/-- `booked_times = {apt.appointment_date for apt in existing_appointments}`:
the set of scheduled instants of that doctor's matching appointments
(a Python set: membership is what is specified, order is not). -/
def bookedTimes (db : DB) (did : Nat) (dateArg : Int) : List Int :=
  ((db.appointments.filter (activeOnDateB did dateArg)).map (fun a => a.appointment_date)).dedup

/-- The shape of the `get_doctor_available_slots` response body (the
fields the specification's `ListSlots` contract is about). -/
structure SlotsResult where
  has_shift : Bool
  available_slots : List Int
  booked_slots : List Int
deriving DecidableEq, Repr

/-- `GET /api/appointments/doctors/{doctor_id}/available-slots`
(`get_doctor_available_slots`).  The inner `Option` is the termination
marker of the unbounded slot loop: `some` is the response the handler
returns, `none` means the handler never returns (possible because the
route has no lower bound on `slot_duration`). -/
def get_doctor_available_slots (db : DB) (did : Nat) (dateArg : Int) (slot_duration : Int) :
    Except ApiError (Option SlotsResult) :=
  match findDoctor db did with
  | none => .error .doctorNotFound
  | some doctor =>
    match findShift db doctor.user_id dateArg with
    | none => .ok (some { has_shift := false, available_slots := [], booked_slots := [] })
    | some shift =>
      match genSlots shift.start_time shift.end_time slot_duration with
      | none => .ok none
      | some slots =>
        let booked := bookedTimes db did dateArg
        .ok (some
          { has_shift := true
            available_slots := slots.filter (fun s => decide (¬ s ∈ booked))
            booked_slots := booked })

/-- Specification invariant INV-1, on a database state: no two active
appointments (soft-delete marker unset, status not Cancelled) of one
doctor share a scheduled instant. -/
def NoActiveConflict (db : DB) : Prop :=
  ∀ a ∈ db.appointments, ∀ b ∈ db.appointments,
    a.id ≠ b.id →
    a.deleted_at = none → a.status ≠ .cancelled →
    b.deleted_at = none → b.status ≠ .cancelled →
    a.doctor_id = b.doctor_id → a.appointment_date ≠ b.appointment_date

/-- Auxiliary invariant: every non-deleted appointment is `PENDING`.
It holds along sequences of Create / Cancel / status-free Update
operations, because Create inserts `PENDING` rows and Cancel soft-deletes
the rows it marks `CANCELLED`. -/
def ActivePending (db : DB) : Prop :=
  ∀ a ∈ db.appointments, a.deleted_at = none → a.status = .pending

/-- The inductive invariant used for the no-double-booking proof. -/
def Inv (db : DB) : Prop :=
  ActivePending db ∧ NoActiveConflict db

/-- One appointment-store operation, any arguments, any outcome (failed
calls leave the state unchanged): Create, Cancel, SetStatus or Update. -/
inductive Step : DB → DB → Prop where
  | create : ∀ (db : DB) (pid did : Nat) (t : Int) (dis : String),
      Step db (create_appointment db pid did t dis).1
  | cancel : ∀ (db : DB) (i : Nat), Step db (delete_appointment db i).1
  | setStatus : ∀ (db : DB) (i : Nat) (st : AppointmentStatus),
      Step db (update_appointment_status db i st).1
  | update : ∀ (db : DB) (i : Nat) (u : AppointmentUpdate),
      Step db (update_appointment db i u).1

/-- Reachability under any sequence of the four operations. -/
def Reachable : DB → DB → Prop :=
  Relation.ReflTransGen Step

/-- One operation from the restricted repertoire: Create, Cancel, or an
Update whose change set touches neither `status` nor `doctor_id`. -/
inductive RStep : DB → DB → Prop where
  | create : ∀ (db : DB) (pid did : Nat) (t : Int) (dis : String),
      RStep db (create_appointment db pid did t dis).1
  | cancel : ∀ (db : DB) (i : Nat), RStep db (delete_appointment db i).1
  | update : ∀ (db : DB) (i : Nat) (u : AppointmentUpdate),
      u.doctor_id = none → u.status = none →
      RStep db (update_appointment db i u).1

/-- Reachability under the restricted repertoire. -/
def ReachableR : DB → DB → Prop :=
  Relation.ReflTransGen RStep

/-! ### Slot-generation lemmas -/

/-- If the window is empty the loop body never runs, for any step. -/
theorem genSlotsFuel_stop (stop step : Int) (fuel : Nat) (cur : Int) (h : stop ≤ cur) :
    genSlotsFuel fuel cur stop step = some [] := by
  have hns : ¬ cur < stop := by omega
  cases fuel <;> simp [genSlotsFuel, hns]

/-- With a non-positive step and a non-empty window the loop never
terminates: no iteration bound is ever enough. -/
theorem genSlotsFuel_none_of_nonpos (stop step : Int) (hstep : step ≤ 0) :
    ∀ (fuel : Nat) (cur : Int), cur < stop → genSlotsFuel fuel cur stop step = none := by
  intro fuel
  induction fuel with
  | zero => intro cur hc; simp [genSlotsFuel, hc]
  | succ f ih =>
    intro cur hc
    have h2 : cur + step < stop := by omega
    simp [genSlotsFuel, hc, ih (cur + step) h2]

/-- Whenever the loop terminates, the produced sequence does not depend on
the iteration bound: slot generation is deterministic. -/
theorem genSlotsFuel_det (stop step : Int) :
    ∀ (f1 : Nat) (cur : Int) (l1 l2 : List Int) (f2 : Nat),
      genSlotsFuel f1 cur stop step = some l1 →
      genSlotsFuel f2 cur stop step = some l2 → l1 = l2 := by
  intro f1
  induction f1 with
  | zero =>
    intro cur l1 l2 f2 h1 h2
    by_cases hc : cur < stop
    · simp [genSlotsFuel, hc] at h1
    · rw [genSlotsFuel_stop stop step 0 cur (by omega)] at h1
      rw [genSlotsFuel_stop stop step f2 cur (by omega)] at h2
      simp at h1 h2
      rw [h1, h2]
  | succ f ih =>
    intro cur l1 l2 f2 h1 h2
    by_cases hc : cur < stop
    · cases f2 with
      | zero => simp [genSlotsFuel, hc] at h2
      | succ f2p =>
        simp only [genSlotsFuel, if_pos hc] at h1 h2
        cases hr1 : genSlotsFuel f (cur + step) stop step with
        | none => rw [hr1] at h1; simp at h1
        | some t1 =>
          cases hr2 : genSlotsFuel f2p (cur + step) stop step with
          | none => rw [hr2] at h2; simp at h2
          | some t2 =>
            rw [hr1] at h1; rw [hr2] at h2
            simp at h1 h2
            rw [← h1, ← h2, ih (cur + step) t1 t2 f2p hr1 hr2]
    · rw [genSlotsFuel_stop stop step _ cur (by omega)] at h1
      rw [genSlotsFuel_stop stop step f2 cur (by omega)] at h2
      simp at h1 h2
      rw [h1, h2]

/-- Every instant the loop yields is strictly below the window end. -/
theorem genSlotsFuel_lt_stop (stop step : Int) :
    ∀ (fuel : Nat) (cur : Int) (l : List Int),
      genSlotsFuel fuel cur stop step = some l → ∀ x ∈ l, x < stop := by
  intro fuel
  induction fuel with
  | zero =>
    intro cur l h x hx
    by_cases hc : cur < stop
    · simp [genSlotsFuel, hc] at h
    · rw [genSlotsFuel_stop stop step 0 cur (by omega)] at h
      simp at h
      rw [h] at hx
      simp at hx
  | succ f ih =>
    intro cur l h x hx
    by_cases hc : cur < stop
    · simp only [genSlotsFuel, if_pos hc] at h
      cases hr : genSlotsFuel f (cur + step) stop step with
      | none => rw [hr] at h; simp at h
      | some t =>
        rw [hr] at h; simp at h
        rw [← h] at hx
        rcases List.mem_cons.mp hx with rfl | hx'
        · exact hc
        · exact ih (cur + step) t hr x hx'
    · rw [genSlotsFuel_stop stop step _ cur (by omega)] at h
      simp at h
      rw [h] at hx
      simp at hx

/-- For a positive step and non-empty window, the closed-form iteration
count equals one plus the count for the shifted window. -/
theorem slotCount_step (start stop step : Int) (hstep : 0 < step) (h : start < stop) :
    slotCount start stop step = slotCount (start + step) stop step + 1 := by
  have hs : 0 < step.toNat := by omega
  by_cases h2 : start + step < stop
  · have e1 : (stop - start).toNat + (step.toNat - 1)
        = (((stop - start).toNat - 1 - step.toNat) + step.toNat) + step.toNat := by omega
    have e2 : (stop - (start + step)).toNat + (step.toNat - 1)
        = ((stop - start).toNat - 1 - step.toNat) + step.toNat := by omega
    rw [slotCount, slotCount, if_pos h, if_pos h2, e1, e2,
        Nat.add_div_right _ hs, Nat.add_div_right _ hs]
  · have e1 : (stop - start).toNat + (step.toNat - 1) = ((stop - start).toNat - 1) + step.toNat := by
      omega
    rw [slotCount, slotCount, if_pos h, if_neg h2, e1, Nat.add_div_right _ hs,
        Nat.div_eq_of_lt (by omega)]

/-- For a positive step and non-empty window, the closed-form sequence
starts with `start` followed by the sequence of the shifted window. -/
theorem slotList_cons (start stop step : Int) (hstep : 0 < step) (h : start < stop) :
    slotList start stop step = start :: slotList (start + step) stop step := by
  rw [slotList, slotList, slotCount_step start stop step hstep h, List.range_succ_eq_map,
      List.map_cons, List.map_map]
  congr 1
  · simp
  · have hfun : ((fun k : Nat => start + (k : Int) * step) ∘ Nat.succ)
        = fun k : Nat => (start + step) + (k : Int) * step := by
      funext k
      simp only [Function.comp]
      push_cast
      ring
    rw [hfun]

/-- The slot loop, given at least `stop - cur` iterations of fuel and a
positive step, terminates and produces the closed-form sequence. -/
theorem genSlotsFuel_eq_slotList (stop step : Int) (hstep : 0 < step) :
    ∀ (fuel : Nat) (cur : Int), (stop - cur).toNat ≤ fuel →
      genSlotsFuel fuel cur stop step = some (slotList cur stop step) := by
  intro fuel
  induction fuel with
  | zero =>
    intro cur h
    have hns : ¬ cur < stop := by omega
    rw [genSlotsFuel_stop stop step 0 cur (by omega)]
    simp [slotList, slotCount, hns]
  | succ f ih =>
    intro cur h
    by_cases hc : cur < stop
    · simp only [genSlotsFuel, if_pos hc]
      rw [ih (cur + step) (by omega), slotList_cons cur stop step hstep hc]
      simp
    · rw [genSlotsFuel_stop stop step _ cur (by omega)]
      simp [slotList, slotCount, hc]

/-- The loop as the handler runs it (fuel `stop - start`) terminates with
the closed-form sequence for every positive step. -/
theorem genSlots_eq_slotList (start stop step : Int) (hstep : 0 < step) :
    genSlots start stop step = some (slotList start stop step) :=
  genSlotsFuel_eq_slotList stop step hstep _ start (le_refl _)

/-- The closed-form count for a non-empty window, written with one
division. -/
theorem slotCount_eq_succ (start stop step : Int) (hstep : 0 < step) (h : start < stop) :
    slotCount start stop step = ((stop - start).toNat - 1) / step.toNat + 1 := by
  have hs : 0 < step.toNat := by omega
  have e1 : (stop - start).toNat + (step.toNat - 1) = ((stop - start).toNat - 1) + step.toNat := by
    omega
  rw [slotCount, if_pos h, e1, Nat.add_div_right _ hs]

/-- Membership in the generated sequence: exactly the multiples of the
step from the window start that lie strictly below the window end. -/
theorem mem_slotList_iff (start stop step : Int) (hstep : 0 < step) (x : Int) :
    x ∈ slotList start stop step ↔ ∃ k : Nat, x = start + (k : Int) * step ∧ x < stop := by
  have hsn : (step.toNat : Int) = step := Int.toNat_of_nonneg hstep.le
  have hs : 0 < step.toNat := by omega
  constructor
  · intro hx
    rw [slotList] at hx
    rcases List.mem_map.mp hx with ⟨k, hk, rfl⟩
    refine ⟨k, rfl, ?_⟩
    have hkn := List.mem_range.mp hk
    by_cases h : start < stop
    · rw [slotCount_eq_succ start stop step hstep h] at hkn
      have h1 : k ≤ ((stop - start).toNat - 1) / step.toNat := by omega
      have h2 : k * step.toNat ≤ (stop - start).toNat - 1 :=
        (Nat.le_div_iff_mul_le hs).mp h1
      have key : ∀ K : Nat, K ≤ (stop - start).toNat - 1 → (K : Int) ≤ stop - start - 1 := by
        intro K hK; omega
      have h3 := key _ h2
      rw [Nat.cast_mul, hsn] at h3
      linarith
    · rw [slotCount, if_neg h] at hkn
      simp at hkn
  · rintro ⟨k, rfl, hlt⟩
    have hknn : (0 : Int) ≤ (k : Int) * step := by positivity
    have h : start < stop := by linarith
    rw [slotList]
    refine List.mem_map.mpr ⟨k, ?_, rfl⟩
    refine List.mem_range.mpr ?_
    rw [slotCount_eq_succ start stop step hstep h]
    have key : ∀ K : Nat, (K : Int) ≤ stop - start - 1 → K ≤ (stop - start).toNat - 1 := by
      intro K hK; omega
    have h5 : ((k * step.toNat : Nat) : Int) ≤ stop - start - 1 := by
      rw [Nat.cast_mul, hsn]; linarith
    have h6 := key _ h5
    have h7 := (Nat.le_div_iff_mul_le hs).mpr h6
    omega

/-- The generated sequence is strictly increasing. -/
theorem slotList_pairwise (start stop step : Int) (hstep : 0 < step) :
    (slotList start stop step).Pairwise (fun x y => x < y) := by
  rw [slotList]
  refine List.Pairwise.map _ ?_ (List.pairwise_lt_range _)
  intro a b hab
  have hab' : (a : Int) < (b : Int) := by exact_mod_cast hab
  have := mul_lt_mul_of_pos_right hab' hstep
  linarith

/-- The generated sequence has exactly `slotCount` entries. -/
theorem slotList_length (start stop step : Int) :
    (slotList start stop step).length = slotCount start stop step := by
  rw [slotList, List.length_map, List.length_range]

/-! ### Query and record-level helper lemmas -/

theorem blocksB_iff (did : Nat) (t : Int) (a : Appointment) :
    blocksB did t a = true ↔ Blocks did t a := by
  simp [blocksB, Blocks, Option.isNone_iff_eq_none, and_assoc]

theorem any_blocks_iff (l : List Appointment) (did : Nat) (t : Int) :
    l.any (blocksB did t) = true ↔ ∃ a ∈ l, Blocks did t a := by
  simp [List.any_eq_true, blocksB_iff]

theorem any_blocks_exclude_iff (l : List Appointment) (i did : Nat) (t : Int) :
    (l.any (fun b => !(b.id == i) && blocksB did t b)) = true ↔
      ∃ b ∈ l, b.id ≠ i ∧ Blocks did t b := by
  simp [List.any_eq_true, blocksB_iff]

theorem findAppointment_some {db : DB} {i : Nat} {a : Appointment}
    (h : findAppointment db i = some a) :
    a ∈ db.appointments ∧ a.id = i ∧ a.deleted_at = none := by
  have hm := List.mem_of_find?_eq_some h
  have hp := List.find?_some h
  simp [Option.isNone_iff_eq_none] at hp
  exact ⟨hm, hp.1, hp.2⟩

theorem applyPD_fields (u : AppointmentUpdate) (a : Appointment) :
    (applyPD u a).id = a.id ∧ (applyPD u a).appointment_date = a.appointment_date ∧
      (applyPD u a).disease = a.disease ∧ (applyPD u a).status = a.status ∧
      (applyPD u a).deleted_at = a.deleted_at := by
  unfold applyPD
  cases u.patient_id <;> cases u.doctor_id <;> exact ⟨rfl, rfl, rfl, rfl, rfl⟩

theorem applyPD_doctor_none (u : AppointmentUpdate) (a : Appointment)
    (hd : u.doctor_id = none) : (applyPD u a).doctor_id = a.doctor_id := by
  unfold applyPD
  rw [hd]
  cases u.patient_id <;> rfl

theorem applyDS_fields (u : AppointmentUpdate) (a : Appointment) :
    (applyDS u a).id = a.id ∧ (applyDS u a).appointment_date = a.appointment_date ∧
      (applyDS u a).patient_id = a.patient_id ∧ (applyDS u a).doctor_id = a.doctor_id ∧
      (applyDS u a).deleted_at = a.deleted_at := by
  unfold applyDS
  cases u.disease <;> cases u.status <;> exact ⟨rfl, rfl, rfl, rfl, rfl⟩

theorem applyDS_status_none (u : AppointmentUpdate) (a : Appointment)
    (hs : u.status = none) : (applyDS u a).status = a.status := by
  unfold applyDS
  rw [hs]
  cases u.disease <;> rfl

theorem applyDS_disease_none (u : AppointmentUpdate) (a : Appointment)
    (hd : u.disease = none) : (applyDS u a).disease = a.disease := by
  unfold applyDS
  rw [hd]
  cases u.status <;> rfl

/-! ### Case-analysis lemmas for the handlers' resulting state -/

/-- `create_appointment` either leaves the state unchanged (an error path)
or, having verified the conflict check, appends the new `PENDING` row. -/
theorem create_result (db : DB) (pid did : Nat) (t : Int) (dis : String) :
    (create_appointment db pid did t dis).1 = db ∨
      ((¬ ∃ a ∈ db.appointments, Blocks did t a) ∧
        (create_appointment db pid did t dis).1 =
          { db with
              appointments := db.appointments ++ [newAppt db pid did t dis]
              next_id := db.next_id + 1 }) := by
  unfold create_appointment
  split
  · exact Or.inl rfl
  split
  · exact Or.inl rfl
  split
  · split
    · exact Or.inl rfl
    · rename_i hc
      refine Or.inr ⟨?_, rfl⟩
      intro hh
      exact hc ((any_blocks_iff _ _ _).mpr hh)
  · exact Or.inl rfl

/-- `delete_appointment` either leaves the state unchanged or soft-deletes
the rows with the requested id. -/
theorem cancel_result (db : DB) (i : Nat) :
    (delete_appointment db i).1 = db ∨
      (delete_appointment db i).1 =
        { db with
            appointments := db.appointments.map (fun b =>
              if b.id == i then { b with deleted_at := some db.now, status := .cancelled }
              else b) } := by
  unfold delete_appointment
  split
  · exact Or.inl rfl
  · exact Or.inr rfl

/-- `update_appointment` either leaves the state unchanged (an error path)
or commits the staged record; on a date change the commit implies the
self-excluding conflict check passed. -/
theorem update_result (db : DB) (i : Nat) (u : AppointmentUpdate) :
    (update_appointment db i u).1 = db ∨
      ∃ a0, findAppointment db i = some a0 ∧
        ((u.appointment_date = none ∧
            (update_appointment db i u).1 = commitUpdate db i (applyDS u (applyPD u a0))) ∨
          (∃ t, u.appointment_date = some t ∧
            (¬ ∃ b ∈ db.appointments, b.id ≠ i ∧ Blocks (applyPD u a0).doctor_id t b) ∧
            (update_appointment db i u).1 =
              commitUpdate db i (applyDS u { applyPD u a0 with appointment_date := t }))) := by
  unfold update_appointment
  split
  · exact Or.inl rfl
  rename_i a0 hfa
  split
  · rename_i hdate
    exact Or.inr ⟨a0, hfa, Or.inl ⟨hdate, rfl⟩⟩
  rename_i t hdate
  split
  · exact Or.inl rfl
  split
  · exact Or.inl rfl
  split
  · split
    · exact Or.inl rfl
    · rename_i hc
      refine Or.inr ⟨a0, hfa, Or.inr ⟨t, hdate, ?_, rfl⟩⟩
      intro hh
      exact hc ((any_blocks_exclude_iff _ _ _ _).mpr hh)
  · exact Or.inl rfl

/-! ### Preservation of the no-double-booking invariant -/

/-- `create_appointment` preserves the inductive invariant: the error
paths leave the state unchanged, and the insert path has verified that no
pending/confirmed appointment occupies `(did, t)`; since every non-deleted
appointment is pending, that rules out every active one. -/
theorem inv_create (db : DB) (pid did : Nat) (t : Int) (dis : String) (h : Inv db) :
    Inv (create_appointment db pid did t dis).1 := by
  rcases create_result db pid did t dis with heq | ⟨hconf, heq⟩
  · rw [heq]; exact h
  · rw [heq]
    obtain ⟨hap, hnc⟩ := h
    constructor
    · intro a ha hdel
      rcases List.mem_append.mp ha with h1 | h2
      · exact hap a h1 hdel
      · rw [List.mem_singleton.mp h2]; rfl
    · intro a ha b hb hid hadel hacan hbdel hbcan hdoc
      rcases List.mem_append.mp ha with ha1 | ha2 <;>
        rcases List.mem_append.mp hb with hb1 | hb2
      · exact hnc a ha1 b hb1 hid hadel hacan hbdel hbcan hdoc
      · have hb2' : b = newAppt db pid did t dis := List.mem_singleton.mp hb2
        subst hb2'
        intro hdd
        exact hconf ⟨a, ha1, hdoc, hdd, hadel, Or.inl (hap a ha1 hadel)⟩
      · have ha2' : a = newAppt db pid did t dis := List.mem_singleton.mp ha2
        subst ha2'
        intro hdd
        exact hconf ⟨b, hb1, hdoc.symm, hdd.symm, hbdel, Or.inl (hap b hb1 hbdel)⟩
      · have ha2' : a = newAppt db pid did t dis := List.mem_singleton.mp ha2
        have hb2' : b = newAppt db pid did t dis := List.mem_singleton.mp hb2
        rw [ha2', hb2'] at hid
        exact absurd rfl hid

/-- `delete_appointment` preserves the inductive invariant: a cancelled
row is soft-deleted, hence inactive, and every other row is untouched. -/
theorem inv_cancel (db : DB) (i : Nat) (h : Inv db) : Inv (delete_appointment db i).1 := by
  rcases cancel_result db i with heq | heq
  · rw [heq]; exact h
  · rw [heq]
    obtain ⟨hap, hnc⟩ := h
    constructor
    · intro a ha hdel
      rcases List.mem_map.mp ha with ⟨x, hx, rfl⟩
      by_cases hxi : (x.id == i) = true
      · simp [hxi] at hdel
      · simp only [hxi, Bool.false_eq_true, if_false] at hdel ⊢
        exact hap x hx hdel
    · intro a ha b hb hid hadel hacan hbdel hbcan hdoc
      rcases List.mem_map.mp ha with ⟨x, hx, rfl⟩
      rcases List.mem_map.mp hb with ⟨y, hy, rfl⟩
      by_cases hxi : (x.id == i) = true
      · simp [hxi] at hadel
      · by_cases hyi : (y.id == i) = true
        · simp [hyi] at hbdel
        · simp only [hxi, hyi, Bool.false_eq_true, if_false] at hid hadel hacan hbdel hbcan hdoc ⊢
          exact hnc x hx y hy hid hadel hacan hbdel hbcan hdoc

/-- A committed in-place update preserves the inductive invariant,
provided the committed record is active-pending, keeps the appointment's
doctor, and its (possibly new) instant clashes with no other active
record of that doctor. -/
theorem inv_commit (db : DB) (i : Nat) (fin a0 : Appointment)
    (_hmem : a0 ∈ db.appointments) (_hid0 : a0.id = i)
    (hap : ActivePending db) (hnc : NoActiveConflict db)
    (_hfdel : fin.deleted_at = none) (hfst : fin.status = .pending)
    (hfdoc : fin.doctor_id = a0.doctor_id)
    (hsafe : ∀ y ∈ db.appointments, y.id ≠ i → y.deleted_at = none → y.status = .pending →
        y.doctor_id = a0.doctor_id → y.appointment_date ≠ fin.appointment_date) :
    Inv (commitUpdate db i fin) := by
  constructor
  · intro a ha hdel
    rcases List.mem_map.mp ha with ⟨x, hx, rfl⟩
    by_cases hxi : (x.id == i) = true
    · simp only [hxi, if_true]
      exact hfst
    · simp only [hxi, Bool.false_eq_true, if_false] at hdel ⊢
      exact hap x hx hdel
  · intro a ha b hb hid hadel hacan hbdel hbcan hdoc
    rcases List.mem_map.mp ha with ⟨x, hx, rfl⟩
    rcases List.mem_map.mp hb with ⟨y, hy, rfl⟩
    by_cases hxi : (x.id == i) = true
    · by_cases hyi : (y.id == i) = true
      · simp only [hxi, hyi, if_true] at hid
        exact absurd rfl hid
      · simp only [hxi, hyi, Bool.false_eq_true, if_true, if_false] at hid hadel hacan hbdel hbcan hdoc ⊢
        have hyid : y.id ≠ i := by
          intro hh
          rw [hh] at hyi
          simp at hyi
        have hypend : y.status = .pending := hap y hy hbdel
        have hydoc : y.doctor_id = a0.doctor_id := hdoc.symm.trans hfdoc
        exact fun hdd => hsafe y hy hyid hbdel hypend hydoc hdd.symm
    · by_cases hyi : (y.id == i) = true
      · simp only [hxi, hyi, Bool.false_eq_true, if_true, if_false] at hid hadel hacan hbdel hbcan hdoc ⊢
        have hxid : x.id ≠ i := by
          intro hh
          rw [hh] at hxi
          simp at hxi
        have hxpend : x.status = .pending := hap x hx hadel
        have hxdoc : x.doctor_id = a0.doctor_id := hdoc.trans hfdoc
        exact hsafe x hx hxid hadel hxpend hxdoc
      · simp only [hxi, hyi, Bool.false_eq_true, if_false] at hid hadel hacan hbdel hbcan hdoc ⊢
        exact hnc x hx y hy hid hadel hacan hbdel hbcan hdoc

/-- A status-free, doctor-free `update_appointment` preserves the
inductive invariant. -/
theorem inv_update (db : DB) (i : Nat) (u : AppointmentUpdate)
    (hd : u.doctor_id = none) (hs : u.status = none) (h : Inv db) :
    Inv (update_appointment db i u).1 := by
  rcases update_result db i u with heq | ⟨a0, hfa, hcase⟩
  · rw [heq]; exact h
  · obtain ⟨hmem, hid0, hdel0⟩ := findAppointment_some hfa
    obtain ⟨hap, hnc⟩ := h
    have hst0 : a0.status = .pending := hap a0 hmem hdel0
    have ha0act : a0.status ≠ .cancelled := by rw [hst0]; intro hh; cases hh
    rcases hcase with ⟨hdn, heq⟩ | ⟨t, hdt, hconf, heq⟩
    · rw [heq]
      refine inv_commit db i _ a0 hmem hid0 hap hnc ?_ ?_ ?_ ?_
      · rw [(applyDS_fields u _).2.2.2.2, (applyPD_fields u a0).2.2.2.2, hdel0]
      · rw [applyDS_status_none u _ hs, (applyPD_fields u a0).2.2.2.1, hst0]
      · rw [(applyDS_fields u _).2.2.2.1, applyPD_doctor_none u a0 hd]
      · intro y hy hyid hydel hypend hydoc
        rw [(applyDS_fields u _).2.1, (applyPD_fields u a0).2.1]
        have hyact : y.status ≠ .cancelled := by rw [hypend]; intro hh; cases hh
        exact hnc y hy a0 hmem (by rw [hid0]; exact hyid) hydel hyact hdel0 ha0act hydoc
    · rw [heq]
      refine inv_commit db i _ a0 hmem hid0 hap hnc ?_ ?_ ?_ ?_
      · rw [(applyDS_fields u _).2.2.2.2]
        show (applyPD u a0).deleted_at = none
        rw [(applyPD_fields u a0).2.2.2.2, hdel0]
      · rw [applyDS_status_none u _ hs]
        show (applyPD u a0).status = .pending
        rw [(applyPD_fields u a0).2.2.2.1, hst0]
      · rw [(applyDS_fields u _).2.2.2.1]
        show (applyPD u a0).doctor_id = a0.doctor_id
        exact applyPD_doctor_none u a0 hd
      · intro y hy hyid hydel hypend hydoc
        rw [(applyDS_fields u _).2.1]
        show y.appointment_date ≠ t
        intro hdd
        refine hconf ⟨y, hy, hyid, ?_, hdd, hydel, Or.inl hypend⟩
        rw [applyPD_doctor_none u a0 hd]
        exact hydoc

/-- Every restricted step preserves the inductive invariant. -/
theorem rstep_inv {db db' : DB} (h : RStep db db') (hinv : Inv db) : Inv db' := by
  cases h with
  | create pid did t dis => exact inv_create _ pid did t dis hinv
  | cancel i => exact inv_cancel _ i hinv
  | update i u hd hs => exact inv_update _ i u hd hs hinv

/-! ### Concrete example records (instants in minutes; day 0 spans 0‥1439,
so a shift 540‥720 is 09:00–12:00 on day 0) -/

def doc1 : Doctor := { id := 1, user_id := 1, deleted_at := none }

def doc2 : Doctor := { id := 2, user_id := 2, deleted_at := none }

def shift1 : Shift :=
  { id := 1, user_id := 1, date := 0, start_time := 540, end_time := 720, deleted_at := none }

def db0C1 : DB :=
  { doctors := [doc1], shifts := [shift1], appointments := [], next_id := 1, now := 5000 }

def db1C1 : DB := (create_appointment db0C1 1 1 600 "flu").1

def db2C1 : DB := (update_appointment_status db1C1 1 .completed).1

def db3C1 : DB := (create_appointment db2C1 2 1 600 "flu").1

/-! ### Claim C1 -/

/-- Claim C1, counterexample: INV-1 does not hold in every reachable
state.  From an empty appointment store, Create doctor 1 at instant 600,
SetStatus the new appointment to Completed, then Create doctor 1 at
instant 600 again: the second Create succeeds because the conflict check
only looks at PENDING/CONFIRMED rows, leaving two active (non-deleted,
non-cancelled) appointments of doctor 1 at the same instant. -/
theorem c1_counterexample :
    db0C1.appointments = [] ∧ Reachable db0C1 db3C1 ∧ ¬ NoActiveConflict db3C1 := by
  refine ⟨rfl, ?_, ?_⟩
  · exact Relation.ReflTransGen.head (Step.create db0C1 1 1 600 "flu")
      (Relation.ReflTransGen.head (Step.setStatus db1C1 1 .completed)
        (Relation.ReflTransGen.single (Step.create db2C1 2 1 600 "flu")))
  · unfold NoActiveConflict
    decide

/-- Claim C1 (amended): starting from a state with no appointments, after
any sequence of Create, Cancel, and Update operations whose change sets
contain neither `status` nor `doctor_id`, no two active appointments
(soft-delete marker unset, status not Cancelled) of one doctor share a
scheduled instant.  (SetStatus, and Updates that rewrite `status` or
`doctor_id`, are excluded: they bypass the conflict check and can revive
a cancelled status or reassign a doctor, breaking the invariant, as the
counterexample shows.) -/
theorem c1_no_double_booking (db0 db : DB) (h0 : db0.appointments = [])
    (hr : ReachableR db0 db) : NoActiveConflict db := by
  have hinv : Inv db := by
    induction hr with
    | refl =>
      constructor
      · intro a ha
        rw [h0] at ha
        exact absurd ha (List.not_mem_nil a)
      · intro a ha
        rw [h0] at ha
        exact absurd ha (List.not_mem_nil a)
    | tail hab hbc ih => exact rstep_inv hbc ih
  exact hinv.2

/-- Claim C1 witness: a single concrete Create step from the empty store
satisfies the amended invariant. -/
theorem c1_no_double_booking_witness : NoActiveConflict db1C1 :=
  c1_no_double_booking db0C1 db1C1 rfl
    (Relation.ReflTransGen.single (RStep.create db0C1 1 1 600 "flu"))

/-! ### Claim C2 -/

def aptC2 : Appointment :=
  { id := 1, patient_id := 1, doctor_id := 1, appointment_date := 600, disease := "x",
    status := .completed, deleted_at := none }

def dbC2 : DB :=
  { doctors := [doc1], shifts := [shift1], appointments := [aptC2], next_id := 2, now := 5000 }

/-- Claim C2, counterexample: an active appointment (status Completed:
not cancelled, not deleted) exists for doctor 1 at instant 600, yet
Create for doctor 1 at instant 600 succeeds instead of failing with
SlotAlreadyBooked — the conflict check only considers PENDING and
CONFIRMED rows. -/
theorem c2_counterexample :
    (∃ a ∈ dbC2.appointments, a.doctor_id = 1 ∧ a.appointment_date = 600 ∧
        a.deleted_at = none ∧ a.status ≠ .cancelled) ∧
      (create_appointment dbC2 1 1 600 "flu").2 = .ok 2 := by
  exact ⟨by decide, rfl⟩

/-- Claim C2 (amended): whenever Create reaches the conflict check (the
doctor resolves, a shift window resolves for the requested instant's
date, and the instant lies within the window bounds), it fails with
SlotAlreadyBooked if and only if a non-deleted appointment with status
Pending or Confirmed exists for that doctor at exactly that instant. -/
theorem c2_slot_already_booked_iff (db : DB) (pid did : Nat) (t : Int) (dis : String)
    (doctor : Doctor) (shift : Shift)
    (hd : findDoctor db did = some doctor)
    (hs : findShift db doctor.user_id (dateOf t) = some shift)
    (h1 : shift.start_time ≤ t) (h2 : t ≤ shift.end_time) :
    (create_appointment db pid did t dis).2 = .error .slotAlreadyBooked ↔
      ∃ a ∈ db.appointments, a.doctor_id = did ∧ a.appointment_date = t ∧
        a.deleted_at = none ∧ (a.status = .pending ∨ a.status = .confirmed) := by
  unfold create_appointment
  simp only [hd, hs]
  rw [if_pos ⟨h1, h2⟩]
  by_cases hc : db.appointments.any (blocksB did t) = true
  · rw [if_pos hc]
    constructor
    · intro _
      rcases (any_blocks_iff _ _ _).mp hc with ⟨a, ha, hB⟩
      exact ⟨a, ha, hB.1, hB.2.1, hB.2.2.1, hB.2.2.2⟩
    · intro _
      rfl
  · rw [if_neg hc]
    constructor
    · intro hcontra
      simp at hcontra
    · rintro ⟨a, ha, q1, q2, q3, q4⟩
      exact absurd ((any_blocks_iff _ _ _).mpr ⟨a, ha, q1, q2, q3, q4⟩) hc

def aptC2w : Appointment :=
  { id := 1, patient_id := 1, doctor_id := 1, appointment_date := 600, disease := "x",
    status := .pending, deleted_at := none }

def dbC2w : DB :=
  { doctors := [doc1], shifts := [shift1], appointments := [aptC2w], next_id := 2, now := 5000 }

/-- Claim C2 witness: with a pending appointment at doctor 1, instant
600, Create at that slot fails with SlotAlreadyBooked. -/
theorem c2_witness :
    (create_appointment dbC2w 1 1 600 "flu").2 = .error .slotAlreadyBooked :=
  (c2_slot_already_booked_iff dbC2w 1 1 600 "flu" doc1 shift1 rfl rfl (by decide)
    (by decide)).mpr (by decide)

/-! ### Claim C3 -/

/-- Claim C3: for a resolved, well-formed shift window, Create with an
instant strictly outside the window always fails with OutsideShiftHours
(whose payload carries the window bounds) and leaves the state — hence
the appointment store — unchanged; an instant equal to either bound never
produces an OutsideShiftHours failure. -/
theorem c3_outside_shift_hours (db : DB) (pid did : Nat) (t : Int) (dis : String)
    (doctor : Doctor) (shift : Shift)
    (hd : findDoctor db did = some doctor)
    (hs : findShift db doctor.user_id (dateOf t) = some shift)
    (hwf : shift.start_time ≤ shift.end_time) :
    ((t < shift.start_time ∨ shift.end_time < t) →
        create_appointment db pid did t dis =
          (db, .error (.outsideShiftHours shift.start_time shift.end_time))) ∧
      ((t = shift.start_time ∨ t = shift.end_time) →
        ∀ ws we, (create_appointment db pid did t dis).2 ≠ .error (.outsideShiftHours ws we)) := by
  constructor
  · intro hout
    have hno : ¬ (shift.start_time ≤ t ∧ t ≤ shift.end_time) := by
      rcases hout with h | h <;> (intro hcon; omega)
    unfold create_appointment
    simp only [hd, hs]
    rw [if_neg hno]
  · intro heq ws we
    have hin : shift.start_time ≤ t ∧ t ≤ shift.end_time := by
      rcases heq with rfl | rfl
      · exact ⟨le_refl _, hwf⟩
      · exact ⟨hwf, le_refl _⟩
    unfold create_appointment
    simp only [hd, hs]
    rw [if_pos hin]
    by_cases hc : db.appointments.any (blocksB did t) = true
    · rw [if_pos hc]
      intro hcontra
      simp at hcontra
    · rw [if_neg hc]
      intro hcontra
      simp at hcontra

def dbC3 : DB :=
  { doctors := [doc1], shifts := [shift1], appointments := [], next_id := 1, now := 5000 }

/-- Claim C3 witness: instant 500 (08:20) against the 540‥720 window
fails with OutsideShiftHours carrying the bounds and leaves the store
unchanged; instant 540 (the window start) never fails with
OutsideShiftHours. -/
theorem c3_witness :
    create_appointment dbC3 1 1 500 "flu" =
        (dbC3, .error (.outsideShiftHours 540 720)) ∧
      (∀ ws we, (create_appointment dbC3 1 1 540 "flu").2 ≠ .error (.outsideShiftHours ws we)) :=
  ⟨(c3_outside_shift_hours dbC3 1 1 500 "flu" doc1 shift1 rfl rfl (by decide)).1
      (Or.inl (by decide)),
    (c3_outside_shift_hours dbC3 1 1 540 "flu" doc1 shift1 rfl rfl (by decide)).2
      (Or.inl rfl)⟩

/-! ### Claim C4 -/

/-- A Cancel whose lookup misses (no non-deleted row with that id) fails
with NotFound and leaves the state unchanged. -/
theorem delete_not_found {db : DB} {i : Nat} (h : findAppointment db i = none) :
    delete_appointment db i = (db, .error .notFound) := by
  unfold delete_appointment
  simp only [h]

/-- Claim C4: Cancel on an existing non-deleted appointment succeeds,
sets the soft-delete marker (`deleted_at = utcnow()`) and forces status
to Cancelled on every row with that id; a second Cancel fails with
NotFound and leaves the state — hence the marker and the status — as the
first call left them. -/
theorem c4_cancel_twice (db : DB) (i : Nat) (a : Appointment)
    (h : findAppointment db i = some a) :
    (delete_appointment db i).2 = .ok () ∧
      (∀ b ∈ (delete_appointment db i).1.appointments, b.id = i →
          b.deleted_at = some db.now ∧ b.status = .cancelled) ∧
      delete_appointment (delete_appointment db i).1 i =
        ((delete_appointment db i).1, .error .notFound) := by
  have hres : delete_appointment db i =
      ({ db with appointments := db.appointments.map (fun b =>
            if b.id == i then { b with deleted_at := some db.now, status := .cancelled }
            else b) },
        .ok ()) := by
    unfold delete_appointment
    simp only [h]
  have hnone : findAppointment (delete_appointment db i).1 i = none := by
    rw [hres]
    unfold findAppointment
    rw [List.find?_eq_none]
    intro x hx
    rcases List.mem_map.mp hx with ⟨y, hy, rfl⟩
    by_cases hyi : (y.id == i) = true
    · simp [hyi]
    · simp [hyi]
  refine ⟨by rw [hres], ?_, delete_not_found hnone⟩
  intro b hb hbid
  rw [hres] at hb
  rcases List.mem_map.mp hb with ⟨x, hx, rfl⟩
  by_cases hxi : (x.id == i) = true
  · simp [hxi]
  · simp only [hxi, Bool.false_eq_true, if_false] at hbid
    rw [hbid] at hxi
    simp at hxi

def aptC4 : Appointment :=
  { id := 1, patient_id := 1, doctor_id := 1, appointment_date := 600, disease := "x",
    status := .confirmed, deleted_at := none }

def dbC4 : DB :=
  { doctors := [doc1], shifts := [shift1], appointments := [aptC4], next_id := 2, now := 5000 }

/-- Claim C4 witness: cancelling appointment 1 succeeds, marks it
deleted-and-cancelled, and a second cancel returns NotFound without
changing the state. -/
theorem c4_witness :
    (delete_appointment dbC4 1).2 = .ok () ∧
      (∀ b ∈ (delete_appointment dbC4 1).1.appointments, b.id = 1 →
          b.deleted_at = some 5000 ∧ b.status = .cancelled) ∧
      delete_appointment (delete_appointment dbC4 1).1 1 =
        ((delete_appointment dbC4 1).1, .error .notFound) :=
  c4_cancel_twice dbC4 1 aptC4 rfl

/-! ### Claim C5 -/

/-- Claim C5: for a positive step, the slot loop terminates and yields
precisely the instants `start + k * step` that are strictly below the
window end, in strictly increasing order; the window end itself is never
produced; and the sequence does not depend on the iteration bound, so
equal inputs always give equal sequences. -/
theorem c5_slot_generation (start stop step : Int) (hstep : 0 < step) :
    genSlots start stop step = some (slotList start stop step) ∧
      (∀ x, x ∈ slotList start stop step ↔
        ∃ k : Nat, x = start + (k : Int) * step ∧ x < stop) ∧
      (slotList start stop step).Pairwise (fun x y => x < y) ∧
      stop ∉ slotList start stop step ∧
      (∀ f1 f2 l1 l2, genSlotsFuel f1 start stop step = some l1 →
        genSlotsFuel f2 start stop step = some l2 → l1 = l2) := by
  refine ⟨genSlots_eq_slotList start stop step hstep,
    fun x => mem_slotList_iff start stop step hstep x,
    slotList_pairwise start stop step hstep, ?_, ?_⟩
  · intro hmem
    rcases (mem_slotList_iff start stop step hstep stop).mp hmem with ⟨k, hk, hlt⟩
    exact absurd hlt (lt_irrefl stop)
  · intro f1 f2 l1 l2 h1 h2
    exact genSlotsFuel_det stop step f1 start l1 l2 f2 h1 h2

/-- Claim C5 witness: the 09:00–12:00 window (540‥720) with a 30-minute
step yields the six slots 09:00‥11:30, and 12:00 is excluded. -/
theorem c5_witness :
    genSlots 540 720 30 = some (slotList 540 720 30) ∧
      slotList 540 720 30 = [540, 570, 600, 630, 660, 690] ∧
      (720 : Int) ∉ slotList 540 720 30 :=
  ⟨(c5_slot_generation 540 720 30 (by decide)).1, by decide,
    (c5_slot_generation 540 720 30 (by decide)).2.2.2.1⟩

/-! ### Claim C6 -/

/-- Claim C6, counterexample: a window of 100 minutes with a 30-minute
step yields 4 slots, but `floor((end - start) / step) = 3`: the claimed
count formula is floor, the loop produces the ceiling. -/
theorem c6_counterexample :
    genSlots 0 100 30 = some [0, 30, 60, 90] ∧
      ([0, 30, 60, 90] : List Int).length = 4 ∧
      ((100 : Int) - 0).toNat / (30 : Int).toNat = 3 ∧
      (4 : Nat) ≠ 3 :=
  ⟨rfl, rfl, rfl, by decide⟩

/-- Claim C6 (amended): for a window with `start < stop` and a positive
step, the slot loop terminates, the number of produced slots equals
`⌈(stop - start) / step⌉` — which coincides with the claimed floor only
when the step divides the window length — the sequence is non-empty, and
its last element is strictly below the window end. -/
theorem c6_slot_count (start stop step : Int) (hstep : 0 < step) (h : start < stop) :
    genSlots start stop step = some (slotList start stop step) ∧
      (slotList start stop step).length =
        ((stop - start).toNat + (step.toNat - 1)) / step.toNat ∧
      slotList start stop step ≠ [] ∧
      (∀ hne : slotList start stop step ≠ [], (slotList start stop step).getLast hne < stop) := by
  refine ⟨genSlots_eq_slotList start stop step hstep, ?_, ?_, ?_⟩
  · rw [slotList_length, slotCount, if_pos h]
  · intro hnil
    have hlen := slotList_length start stop step
    rw [hnil, slotCount_eq_succ start stop step hstep h] at hlen
    simp at hlen
  · intro hne
    have hmem := List.getLast_mem hne
    rcases (mem_slotList_iff start stop step hstep _).mp hmem with ⟨k, hk, hlt⟩
    exact hlt

/-- Claim C6 witness: window 540‥700 (160 minutes), step 30: 6 slots,
the ceiling of 160/30; the last slot 690 is below 700. -/
theorem c6_witness :
    (slotList 540 700 30).length =
        (((700 : Int) - 540).toNat + ((30 : Int).toNat - 1)) / (30 : Int).toNat ∧
      slotList 540 700 30 ≠ [] :=
  ⟨(c6_slot_count 540 700 30 (by decide) (by decide)).2.1,
    (c6_slot_count 540 700 30 (by decide) (by decide)).2.2.1⟩

/-! ### Claim C7 -/

/-- Claim C7: the true half — an empty or inverted window yields the
empty sequence for any step; the false half, stated as the code behaves —
for a non-positive step and a non-empty window the slot loop never
terminates: for every iteration bound it is still running.  The
specification instead promises the empty sequence, so the absent
`stepDuration <= 0` guard is a code bug (the request hangs). -/
theorem c7_slot_loop (start stop step : Int) :
    (stop ≤ start → ∀ fuel, genSlotsFuel fuel start stop step = some []) ∧
      (step ≤ 0 → start < stop → ∀ fuel, genSlotsFuel fuel start stop step = none) := by
  constructor
  · intro h fuel
    exact genSlotsFuel_stop stop step fuel start h
  · intro hstep h fuel
    exact genSlotsFuel_none_of_nonpos stop step hstep fuel start h

/-- Claim C7 witness: with `slot_duration = 0` on the 540‥720 window the
loop is still running after a million iterations; with an empty window it
returns the empty sequence at once. -/
theorem c7_witness :
    genSlotsFuel 1000000 540 720 0 = none ∧ genSlotsFuel 3 540 540 30 = some [] :=
  ⟨(c7_slot_loop 540 720 0).2 (by decide) (by decide) 1000000,
    (c7_slot_loop 540 540 30).1 (le_refl _) 3⟩

/-! ### Claim C8 -/

theorem activeOnDateB_iff (did : Nat) (dateArg : Int) (a : Appointment) :
    activeOnDateB did dateArg a = true ↔
      a.doctor_id = did ∧ dateOf a.appointment_date = dateArg ∧ a.deleted_at = none ∧
        (a.status = .pending ∨ a.status = .confirmed) := by
  simp [activeOnDateB, Option.isNone_iff_eq_none, and_assoc]

def aptC8 : Appointment :=
  { id := 1, patient_id := 1, doctor_id := 1, appointment_date := 555, disease := "x",
    status := .pending, deleted_at := none }

def dbC8 : DB :=
  { doctors := [doc1], shifts := [shift1], appointments := [aptC8], next_id := 2, now := 5000 }

/-- Claim C8, counterexample: with a pending appointment at instant 555
(an instant not on the 30-minute grid of the 540‥720 window), the booked
list the handler returns contains 555, which is not an element of the
generated slot sequence — the booked list is the set of the doctor's
appointment instants on the date, not a subset of the generated slots. -/
theorem c8_counterexample :
    get_doctor_available_slots dbC8 1 0 30 =
        .ok (some ⟨true, [540, 570, 600, 630, 660, 690], [555]⟩) ∧
      genSlots 540 720 30 = some [540, 570, 600, 630, 660, 690] ∧
      (555 : Int) ∉ ([540, 570, 600, 630, 660, 690] : List Int) :=
  ⟨rfl, rfl, by decide⟩

/-- Claim C8 (amended): a missing shift yields the explicit no-shift
result with both lists empty (not an error).  Otherwise (whenever the
slot loop terminates) the booked list is exactly the set of scheduled
instants of the doctor's non-deleted Pending/Confirmed appointments on
the requested date — instants that need not belong to the generated
sequence — and the available list is the generated sequence minus that
set, so each generated instant lands in `available` precisely when no
such appointment sits at exactly that instant. -/
theorem c8_list_slots (db : DB) (did : Nat) (dateArg dur : Int) (doctor : Doctor)
    (hd : findDoctor db did = some doctor) :
    (findShift db doctor.user_id dateArg = none →
        get_doctor_available_slots db did dateArg dur = .ok (some ⟨false, [], []⟩)) ∧
      (∀ shift slots, findShift db doctor.user_id dateArg = some shift →
        genSlots shift.start_time shift.end_time dur = some slots →
        get_doctor_available_slots db did dateArg dur =
            .ok (some ⟨true, slots.filter (fun s => decide (¬ s ∈ bookedTimes db did dateArg)),
              bookedTimes db did dateArg⟩) ∧
          (∀ x, x ∈ bookedTimes db did dateArg ↔
            ∃ a ∈ db.appointments, a.doctor_id = did ∧ dateOf a.appointment_date = dateArg ∧
              a.deleted_at = none ∧ (a.status = .pending ∨ a.status = .confirmed) ∧
              a.appointment_date = x) ∧
          (∀ s ∈ slots,
            s ∈ slots.filter (fun s => decide (¬ s ∈ bookedTimes db did dateArg)) ↔
              ¬ s ∈ bookedTimes db did dateArg)) := by
  constructor
  · intro hns
    unfold get_doctor_available_slots
    simp only [hd, hns]
  · intro shift slots hs hg
    refine ⟨?_, ?_, ?_⟩
    · unfold get_doctor_available_slots
      simp only [hd, hs, hg]
    · intro x
      rw [bookedTimes, List.mem_dedup, List.mem_map]
      constructor
      · rintro ⟨a, ha, rfl⟩
        rw [List.mem_filter] at ha
        obtain ⟨ham, hpb⟩ := ha
        obtain ⟨q1, q2, q3, q4⟩ := (activeOnDateB_iff did dateArg a).mp hpb
        exact ⟨a, ham, q1, q2, q3, q4, rfl⟩
      · rintro ⟨a, ham, q1, q2, q3, q4, q5⟩
        exact ⟨a,
          List.mem_filter.mpr ⟨ham, (activeOnDateB_iff did dateArg a).mpr ⟨q1, q2, q3, q4⟩⟩, q5⟩
    · intro s hsmem
      rw [List.mem_filter]
      simp [hsmem]

def dbC8b : DB :=
  { doctors := [doc1], shifts := [], appointments := [], next_id := 1, now := 5000 }

/-- Claim C8 witness: doctor 1 with no shift on the requested date gets
the explicit no-shift response with both lists empty. -/
theorem c8_witness :
    get_doctor_available_slots dbC8b 1 0 30 = .ok (some ⟨false, [], []⟩) :=
  (c8_list_slots dbC8b 1 0 30 doc1 rfl).1 rfl

/-! ### Claim C9 -/

/-- Claim C9: an Update whose change set contains only the reason field
(`disease`) succeeds and changes only that field of the target
appointment: patient, doctor, scheduled instant, status and the
soft-delete marker are unchanged, and every other stored appointment is
untouched. -/
theorem c9_partial_update (db : DB) (i : Nat) (s : String) (a0 : Appointment)
    (h : findAppointment db i = some a0) :
    (update_appointment db i { disease := some s }).2 = .ok () ∧
      ∀ b ∈ (update_appointment db i { disease := some s }).1.appointments,
        (b.id = i → b.patient_id = a0.patient_id ∧ b.doctor_id = a0.doctor_id ∧
          b.appointment_date = a0.appointment_date ∧ b.status = a0.status ∧
          b.deleted_at = a0.deleted_at ∧ b.disease = s) ∧
        (b.id ≠ i → b ∈ db.appointments) := by
  have hres : update_appointment db i { disease := some s } =
      (commitUpdate db i { a0 with disease := s }, .ok ()) := by
    unfold update_appointment
    simp only [h]
    rfl
  rw [hres]
  refine ⟨rfl, ?_⟩
  intro b hb
  rw [commitUpdate] at hb
  rcases List.mem_map.mp hb with ⟨x, hx, rfl⟩
  by_cases hxi : (x.id == i) = true
  · constructor
    · intro _
      simp [hxi]
    · intro hne
      simp only [hxi, if_true] at hne
      exact absurd (findAppointment_some h).2.1 hne
  · simp only [hxi, Bool.false_eq_true, if_false]
    constructor
    · intro hbid
      rw [hbid] at hxi
      simp at hxi
    · intro _
      exact hx

def aptC9 : Appointment :=
  { id := 1, patient_id := 1, doctor_id := 1, appointment_date := 600, disease := "x",
    status := .confirmed, deleted_at := none }

def dbC9 : DB :=
  { doctors := [doc1], shifts := [shift1], appointments := [aptC9], next_id := 2, now := 5000 }

/-- Claim C9 witness: updating only the reason of appointment 1
succeeds. -/
theorem c9_witness :
    (update_appointment dbC9 1 { disease := some "checkup" }).2 = .ok () :=
  (c9_partial_update dbC9 1 "checkup" aptC9 rfl).1

/-! ### Claim C10 -/

/-- Claim C10: an Update whose change set contains only `doctor_id`
succeeds for every database state in which the appointment exists
non-deleted — hence without any shift-window or conflict validation
against the new doctor — and assigns the new doctor reference, leaving
every other field and every other appointment unchanged. -/
theorem c10_update_doctor_unvalidated (db : DB) (i d : Nat) (a0 : Appointment)
    (h : findAppointment db i = some a0) :
    (update_appointment db i { doctor_id := some d }).2 = .ok () ∧
      ∀ b ∈ (update_appointment db i { doctor_id := some d }).1.appointments,
        (b.id = i → b = { a0 with doctor_id := d }) ∧ (b.id ≠ i → b ∈ db.appointments) := by
  have hres : update_appointment db i { doctor_id := some d } =
      (commitUpdate db i { a0 with doctor_id := d }, .ok ()) := by
    unfold update_appointment
    simp only [h]
    rfl
  rw [hres]
  refine ⟨rfl, ?_⟩
  intro b hb
  rw [commitUpdate] at hb
  rcases List.mem_map.mp hb with ⟨x, hx, rfl⟩
  by_cases hxi : (x.id == i) = true
  · constructor
    · intro _
      simp [hxi]
    · intro hne
      simp only [hxi, if_true] at hne
      exact absurd (findAppointment_some h).2.1 hne
  · simp only [hxi, Bool.false_eq_true, if_false]
    constructor
    · intro hbid
      rw [hbid] at hxi
      simp at hxi
    · intro _
      exact hx

def aptC10 : Appointment :=
  { id := 1, patient_id := 1, doctor_id := 1, appointment_date := 600, disease := "x",
    status := .pending, deleted_at := none }

def aptC10b : Appointment :=
  { id := 2, patient_id := 2, doctor_id := 2, appointment_date := 600, disease := "y",
    status := .pending, deleted_at := none }

def dbC10 : DB :=
  { doctors := [doc1, doc2], shifts := [shift1], appointments := [aptC10, aptC10b],
    next_id := 3, now := 5000 }

/-- Claim C10 witness: reassigning appointment 1 to doctor 2 succeeds
although doctor 2 already has an active appointment at the same instant
and has no shift window on that date. -/
theorem c10_witness :
    (update_appointment dbC10 1 { doctor_id := some 2 }).2 = .ok () ∧
      (∃ c ∈ dbC10.appointments, c.id ≠ 1 ∧ c.doctor_id = 2 ∧ c.appointment_date = 600 ∧
        c.deleted_at = none ∧ c.status = .pending) ∧
      findShift dbC10 2 (dateOf 600) = none :=
  ⟨(c10_update_doctor_unvalidated dbC10 1 2 aptC10 rfl).1, by decide, rfl⟩

end Hospital
